import Mathlib

/-!
# Verification of the FLAME prioritized transfer engine and fragment directory

Shallow embedding of `akita/flame/pm_engine.go` and
`akita/flame/fragment_directory.go` (Go), with theorems settling the
specification claims about them.

Machine integers are modelled as `Nat` (Go unsigned types) and `Int`
(Go signed types); wraparound is made explicit (`% 2^w`) where the
arithmetic could overflow (the latency computation over `time.Duration`,
an `int64`).  Go maps are modelled as association lists whose reachable
states have pairwise-distinct keys; Go channels are modelled by explicit
buffer states; the background dispatch goroutine is modelled as a step
relation over an engine state, driven by event traces.
-/

namespace Flame

/-! ## Data model: fragment directory (`fragment_directory.go`) -/

/-- `FragmentKey` identifies a fragment by virtual page number and sub-page
fragment index (Go: `VPN uint64`, `Index uint16`; only equality of keys is
ever computed, so both are modelled as `Nat`). -/
structure FragmentKey where
  VPN : Nat
  Index : Nat
deriving DecidableEq, Repr

/-- `FragMapping` is the placement record stored for one fragment
(Go: `NodeID int`, `PhysAddr uint64`, `Size uint32`, `Replica bool`,
`LeaseEnds int64`, `Flags uint32`). -/
structure FragMapping where
  NodeID : Int
  PhysAddr : Nat
  Size : Nat
  Replica : Bool
  LeaseEnds : Int
  Flags : Nat
deriving DecidableEq, Repr

/-- The zero value of `FragMapping`, returned by a Go map lookup of an
absent key. -/
def zeroFragMapping : FragMapping :=
  { NodeID := 0, PhysAddr := 0, Size := 0, Replica := false,
    LeaseEnds := 0, Flags := 0 }

/-- The directory's backing store `data map[FragmentKey]FragMapping`,
modelled as an association list.  States reachable through `Install` and
`Remove` keep the keys pairwise distinct, mirroring Go map semantics. -/
abbrev DirData := List (FragmentKey × FragMapping)

/-- The keys of an association list are pairwise distinct (the invariant
every Go map enjoys by construction). -/
def KeysNodup (d : DirData) : Prop := (d.map Prod.fst).Nodup

instance : DecidablePred KeysNodup := fun d =>
  inferInstanceAs (Decidable ((d.map Prod.fst).Nodup))

/-- Go map read `m, ok := d.data[fk]`: first (only) binding of the key,
or the zero value with `ok = false`. -/
def dirFind (d : DirData) (fk : FragmentKey) : FragMapping × Bool :=
  match d.find? (fun kv => kv.1 = fk) with
  | some kv => (kv.2, true)
  | none => (zeroFragMapping, false)

/-- `Lookup` returns the mapping and `true` if present
(`fragment_directory.go`, `Lookup`). -/
def Lookup (d : DirData) (vpn : Nat) (idx : Nat) : FragMapping × Bool :=
  dirFind d { VPN := vpn, Index := idx }

/-- Go map write `d.data[fk] = m`: replace the binding if the key is
present, otherwise add it. -/
def dirStore (d : DirData) (fk : FragmentKey) (m : FragMapping) : DirData :=
  match d with
  | [] => [(fk, m)]
  | kv :: t => if kv.1 = fk then (fk, m) :: t else kv :: dirStore t fk m

/-- `Install` installs/updates a mapping (`fragment_directory.go`,
`Install`). -/
def Install (d : DirData) (vpn : Nat) (idx : Nat) (m : FragMapping) : DirData :=
  dirStore d { VPN := vpn, Index := idx } m

/-- Go map delete `delete(d.data, fk)`: remove the binding if present,
no-op otherwise. -/
def dirDelete (d : DirData) (fk : FragmentKey) : DirData :=
  match d with
  | [] => []
  | kv :: t => if kv.1 = fk then t else kv :: dirDelete t fk

/-- `Remove` deletes a fragment mapping (`fragment_directory.go`,
`Remove`). -/
def Remove (d : DirData) (vpn : Nat) (idx : Nat) : DirData :=
  dirDelete d { VPN := vpn, Index := idx }

/-- `ScanForNode` returns all fragments currently mapped to a node
(`fragment_directory.go`, `ScanForNode`): the entries whose mapping's
`NodeID` equals `node`. -/
def ScanForNode (d : DirData) (node : Int) : DirData :=
  d.filter (fun kv => kv.2.NodeID = node)

/-! ## Data model: transfer engine (`pm_engine.go`) -/

/-- `TransferRequest` describes a prioritized fragment transfer
(Go: `ID string`, `SrcNode, DstNode int`, `SizeBytes uint64`,
`Priority int` — lower means higher priority —, `Meta string`,
`Done chan error`).  The `Done` channel is modelled by an optional
channel identifier: Go's nil channel is `none`, an allocated channel is
`some` of its index in the engine's channel store. -/
structure TransferRequest where
  ID : String
  SrcNode : Int
  DstNode : Int
  SizeBytes : Nat
  Priority : Int
  Meta : String
  Done : Option Nat
deriving DecidableEq, Repr

/-- A Go buffered channel of `error` values, reduced to its buffer state:
`capacity` is the buffer capacity fixed at `make`, `buffer` holds the
values sent but not yet received (a `none` element is Go's nil error). -/
structure Chan where
  capacity : Nat
  buffer : List (Option String)
deriving DecidableEq, Repr

/-- `make(chan error, 1)`: a fresh buffered channel of capacity one with
an empty buffer. -/
def mkDoneChan : Chan := { capacity := 1, buffer := [] }

/-- Go's non-blocking send `select { case c <- v: default: }` on a
buffered channel: the value is appended to the buffer when a slot is
free (result flag `true`, the send case), otherwise the channel is left
unchanged and the default case is taken (flag `false`, signal dropped).
The function is total: the operation never blocks. -/
def trySend (c : Chan) (v : Option String) : Chan × Bool :=
  if c.buffer.length < c.capacity then
    ({ c with buffer := c.buffer ++ [v] }, true)
  else
    (c, false)

/-- One backward bubble pass of `EnqueueTransfer`'s insertion loop, seen
from the tail of the queue: the list argument is the queue *reversed*,
so its head is the element just before the newly appended request `r`.
While that element's priority is strictly greater than `r.Priority` the
two are swapped (`r` moves toward the front of the queue); the loop
breaks at the first element whose priority is `≤ r.Priority`. -/
def bubbleRev (r : TransferRequest) : List TransferRequest → List TransferRequest
  | [] => [r]
  | y :: ys => if r.Priority < y.Priority then y :: bubbleRev r ys else r :: y :: ys

/-- The queue mutation performed by `EnqueueTransfer` (pm_engine.go,
lines 58–66): append `r` to `pending`, then run the backward insertion
pass.  Formulated via `List.reverse` so the pass can walk the appended
list from its tail. -/
def insertPending (pending : List TransferRequest) (r : TransferRequest) :
    List TransferRequest :=
  (bubbleRev r pending.reverse).reverse

/-- Priority comparison used for queue ordering: lower value means higher
priority. -/
def prioLE (a b : TransferRequest) : Prop := a.Priority ≤ b.Priority

instance : DecidableRel prioLE := fun a b =>
  inferInstanceAs (Decidable (a.Priority ≤ b.Priority))

/-- The engine state visible to `EnqueueTransfer` (pm_engine.go,
`PMEngine`): the pending queue plus the store of every channel the
engine has allocated (`chans.length` fresh identifiers have been handed
out so far; a new channel gets the next index). -/
structure PMEngine where
  pending : List TransferRequest
  chans : List Chan
deriving DecidableEq, Repr

/-- A freshly constructed engine (`NewPMEngine`): empty queue, no
channels allocated yet. -/
def NewPMEngine : PMEngine := { pending := [], chans := [] }

/-- `EnqueueTransfer` (pm_engine.go, lines 51–68).  The argument is
`Option TransferRequest`: `none` is Go's nil pointer, which is rejected
with the error `"nil request"` and leaves the state untouched.  For a
non-nil request the engine overwrites `req.Done` with a freshly
allocated capacity-1 buffered channel, inserts the request into the
pending queue by the stable priority bubble, and returns the fresh
channel's identifier as the completion handle. -/
def EnqueueTransfer (e : PMEngine) (req : Option TransferRequest) :
    PMEngine × Except String Nat :=
  match req with
  | none => (e, .error "nil request")
  | some r =>
      let cid := e.chans.length
      let r2 := { r with Done := some cid }
      ({ pending := insertPending e.pending r2,
         chans := e.chans ++ [mkDoneChan] },
       .ok cid)

/-! ## Latency computation (pm_engine.go, lines 93–98)

`time.Duration` is Go's `int64`; its arithmetic wraps in two's
complement and its division truncates toward zero.  `toInt64` is the
explicit wrap. -/

/-- Two's-complement wrap of an integer into the `int64` range. -/
def toInt64 (n : Int) : Int := (n + 2 ^ 63) % 2 ^ 64 - 2 ^ 63

/-- The simulated service latency in nanoseconds (pm_engine.go, lines
93–98): `latency := e.interval + time.Duration(req.SizeBytes/(1<<20)) *
time.Millisecond`, then `latency /= 2` when `req.Priority <= 0`.
`interval` is the engine's base latency (`e.interval`, an `int64` count
of nanoseconds); `req.SizeBytes` is a `uint64`, so its value is reduced
`% 2^64` and divided by `1<<20` with Go's floor division on unsigned
integers; the conversion to `time.Duration` and the multiplication and
addition wrap as `int64`; the halving truncates toward zero. -/
def serviceLatency (interval : Int) (req : TransferRequest) : Int :=
  let sizeMiB : Int := ((req.SizeBytes % 2 ^ 64 / 2 ^ 20 : Nat) : Int)
  let latency := toInt64 (interval + toInt64 (toInt64 sizeMiB * 1000000))
  if req.Priority ≤ 0 then latency.tdiv 2 else latency

/-- The default base latency installed by `NewPMEngine`:
`2 * time.Millisecond` in nanoseconds. -/
def defaultInterval : Int := 2000000

/-! ## Claim-side latency formulas

For the refinement claim about the latency formula, these two
definitions follow the words of the specification rather than the
source: service time `base_latency + ceil(size_bytes / 1MiB) *
per_MiB_latency` (per the claim) or the same with floor division (the
candidate amendment), halved when the priority is at most zero.
`per_MiB_latency` is one millisecond, i.e. 1000000 nanoseconds. -/

/-- Modelled from the claim's words: `base_latency + ceil(size_bytes /
1MiB) * per_MiB_latency`, halved when priority ≤ 0. -/
def claimLatencyCeil (interval : Int) (req : TransferRequest) : Int :=
  let latency := interval + (((req.SizeBytes + 2 ^ 20 - 1) / 2 ^ 20 : Nat) : Int) * 1000000
  if req.Priority ≤ 0 then latency.tdiv 2 else latency

/-- Modelled from the amended claim's words: `base_latency +
floor(size_bytes / 1MiB) * per_MiB_latency`, halved when priority ≤ 0. -/
def claimLatencyFloor (interval : Int) (req : TransferRequest) : Int :=
  let latency := interval + ((req.SizeBytes / 2 ^ 20 : Nat) : Int) * 1000000
  if req.Priority ≤ 0 then latency.tdiv 2 else latency

/-! ## The quit channel and `Stop` (pm_engine.go, lines 71–73) -/

/-- The engine's `quit chan struct{}`, reduced to the one observable that
`Stop` touches: whether the channel has been closed. -/
structure QuitChan where
  closed : Bool
deriving DecidableEq, Repr

/-- `Stop` (pm_engine.go, lines 71–73) executes `close(e.quit)`.  Go's
`close` on an already-closed channel panics with `"close of closed
channel"`; the panic is modelled as the `Except.error` branch. -/
def Stop (c : QuitChan) : Except String QuitChan :=
  if c.closed then Except.error "close of closed channel"
  else Except.ok { closed := true }

/-! ## Trace semantics of the dispatch loop (pm_engine.go, lines 76–111)

The engine runs one background dispatch loop.  An execution is modelled
as a sequence of atomic events: a successful `EnqueueTransfer` of a
request (`submit`), one iteration of the loop that pops the queue head
(`dispatch`), and the `Stop` signal becoming visible to the loop
(`stop`).  Races between the loop and `Stop` are covered by the choice
of interleaving: a pop that the loop began before observing `quit` is a
`dispatch` event ordered before the `stop` event.

Each dispatched request's completion goroutine performs the
non-blocking send `select { case r.Done <- nil: default: }`.  When every
request is submitted at most once, its `Done` channel is the capacity-1
buffered channel freshly allocated by its single `EnqueueTransfer`, and
this goroutine's send is the only send ever targeting that channel, so
the channel's state at delivery time is `mkDoneChan`; the `delivered`
log therefore records the request exactly when
`(trySend mkDoneChan none).2` is `true`. -/

/-- An atomic event of an engine execution. -/
inductive Event where
  | submit (r : TransferRequest)
  | dispatch
  | stop
deriving DecidableEq, Repr

/-- Observable state of an engine execution: the pending queue, whether
the loop has observed `quit`, and logs of the submitted, dispatched and
signal-delivered requests in order. -/
structure TraceState where
  pending : List TransferRequest
  stopped : Bool
  submitted : List TransferRequest
  dispatched : List TransferRequest
  delivered : List TransferRequest
deriving DecidableEq, Repr

/-- The state of a freshly constructed engine. -/
def initState : TraceState :=
  { pending := [], stopped := false, submitted := [], dispatched := [],
    delivered := [] }

/-- One atomic event.  `submit r` is the queue mutation of a successful
`EnqueueTransfer`.  `dispatch` is one loop iteration: after the loop has
observed `quit` it has returned and nothing happens; with an empty queue
the iteration only sleeps; otherwise the head is popped and its
completion goroutine delivers the nil-error signal through the
non-blocking send on its fresh `Done` channel.  `stop` is the loop
observing the closed `quit` channel. -/
def step (st : TraceState) : Event → TraceState
  | .submit r =>
      { st with pending := insertPending st.pending r,
                submitted := st.submitted ++ [r] }
  | .dispatch =>
      if st.stopped then st
      else
        match st.pending with
        | [] => st
        | r :: rest =>
            { st with pending := rest,
                      dispatched := st.dispatched ++ [r],
                      delivered :=
                        if (trySend mkDoneChan none).2 then st.delivered ++ [r]
                        else st.delivered }
  | .stop => { st with stopped := true }

/-- Run an event trace from the initial state. -/
def run (t : List Event) : TraceState := t.foldl step initState

/-! ## Concrete values used in examples, witnesses and counterexamples -/

/-- Example request A of the specification: priority 5, size 0. -/
def reqA : TransferRequest :=
  { ID := "A", SrcNode := 0, DstNode := 1, SizeBytes := 0, Priority := 5,
    Meta := "", Done := none }

/-- Example request B of the specification: priority 1, size 0. -/
def reqB : TransferRequest :=
  { ID := "B", SrcNode := 0, DstNode := 1, SizeBytes := 0, Priority := 1,
    Meta := "", Done := none }

/-- Example request C of the specification: priority 1, size 0. -/
def reqC : TransferRequest :=
  { ID := "C", SrcNode := 0, DstNode := 1, SizeBytes := 0, Priority := 1,
    Meta := "", Done := none }

/-- A one-byte request of positive priority: `SizeBytes/(1<<20)` floors
to zero while the ceiling of `1 / 1MiB` is one. -/
def reqOneByte : TransferRequest :=
  { ID := "one", SrcNode := 0, DstNode := 1, SizeBytes := 1, Priority := 5,
    Meta := "", Done := none }

/-- A request of five MiB plus three bytes at the highest priority tier. -/
def reqFiveMiB : TransferRequest :=
  { ID := "five", SrcNode := 2, DstNode := 3, SizeBytes := 5 * 2 ^ 20 + 3,
    Priority := 0, Meta := "", Done := none }

/-- A concrete fragment mapping on node 3. -/
def mapNode3 : FragMapping :=
  { NodeID := 3, PhysAddr := 0xABCD, Size := 4096, Replica := false,
    LeaseEnds := 0, Flags := 0 }

/-- A concrete fragment mapping on node 7. -/
def mapNode7 : FragMapping :=
  { NodeID := 7, PhysAddr := 0x1000, Size := 256, Replica := true,
    LeaseEnds := 5, Flags := 1 }

/-- A concrete two-entry directory state with distinct keys. -/
def dirTwo : DirData :=
  [({ VPN := 0x1000, Index := 2 }, mapNode3),
   ({ VPN := 0x2000, Index := 0 }, mapNode7)]

/-! ## Helper lemmas: the insertion pass -/

theorem bubbleRev_perm (r : TransferRequest) (rl : List TransferRequest) :
    List.Perm (bubbleRev r rl) (r :: rl) := by
  induction rl with
  | nil => simp [bubbleRev]
  | cons y ys ih =>
      by_cases h : r.Priority < y.Priority
      · simp only [bubbleRev, if_pos h]
        exact (ih.cons y).trans (List.Perm.swap r y ys)
      · simp [bubbleRev, if_neg h]

theorem insertPending_perm (l : List TransferRequest) (r : TransferRequest) :
    List.Perm (insertPending l r) (r :: l) := by
  unfold insertPending
  exact ((List.reverse_perm (bubbleRev r l.reverse)).trans
    (bubbleRev_perm r l.reverse)).trans ((List.reverse_perm l).cons r)

theorem insertPending_length (l : List TransferRequest) (r : TransferRequest) :
    (insertPending l r).length = l.length + 1 := by
  have := (insertPending_perm l r).length_eq
  simpa [Nat.add_comm] using this

theorem insertPending_count (l : List TransferRequest) (r x : TransferRequest) :
    (insertPending l r).count x = (r :: l).count x :=
  (insertPending_perm l r).count_eq x

theorem bubbleRev_pairwise (r : TransferRequest) (rl : List TransferRequest)
    (h : rl.Pairwise (fun a b => b.Priority ≤ a.Priority)) :
    (bubbleRev r rl).Pairwise (fun a b => b.Priority ≤ a.Priority) := by
  induction rl with
  | nil => simp [bubbleRev]
  | cons y ys ih =>
      rcases List.pairwise_cons.1 h with ⟨hy, hys⟩
      by_cases hc : r.Priority < y.Priority
      · simp only [bubbleRev, if_pos hc]
        refine List.pairwise_cons.2 ⟨?_, ih hys⟩
        intro z hz
        rcases List.mem_cons.1 ((bubbleRev_perm r ys).mem_iff.1 hz) with rfl | hz'
        · exact le_of_lt hc
        · exact hy z hz'
      · simp only [bubbleRev, if_neg hc]
        refine List.pairwise_cons.2 ⟨?_, h⟩
        intro z hz
        rcases List.mem_cons.1 hz with rfl | hz'
        · omega
        · have := hy z hz'
          omega

theorem insertPending_pairwise (l : List TransferRequest) (r : TransferRequest)
    (h : l.Pairwise prioLE) : (insertPending l r).Pairwise prioLE := by
  unfold insertPending
  rw [List.pairwise_reverse]
  refine bubbleRev_pairwise r l.reverse ?_
  rw [List.pairwise_reverse]
  exact h

theorem bubbleRev_filter_of_pos (p : TransferRequest → Bool) (r : TransferRequest)
    (rl : List TransferRequest) (hr : p r = true)
    (hstop : ∀ a, p a = true → ¬ r.Priority < a.Priority) :
    (bubbleRev r rl).filter p = r :: rl.filter p := by
  induction rl with
  | nil => simp [bubbleRev, hr]
  | cons y ys ih =>
      by_cases hc : r.Priority < y.Priority
      · have hpy : p y = false := by
          cases hpy : p y with
          | false => rfl
          | true => exact absurd hc (hstop y hpy)
        simp only [bubbleRev, if_pos hc, List.filter_cons, hpy]
        simpa [hpy] using ih
      · simp [bubbleRev, if_neg hc, List.filter_cons, hr]

theorem bubbleRev_filter_of_neg (p : TransferRequest → Bool) (r : TransferRequest)
    (rl : List TransferRequest) (hr : p r = false) :
    (bubbleRev r rl).filter p = rl.filter p := by
  induction rl with
  | nil => simp [bubbleRev, hr]
  | cons y ys ih =>
      by_cases hc : r.Priority < y.Priority
      · simp [bubbleRev, if_pos hc, List.filter_cons, ih]
      · simp [bubbleRev, if_neg hc, List.filter_cons, hr]

theorem insertPending_filter_of_pos (p : TransferRequest → Bool)
    (l : List TransferRequest) (r : TransferRequest) (hr : p r = true)
    (hstop : ∀ a, p a = true → ¬ r.Priority < a.Priority) :
    (insertPending l r).filter p = l.filter p ++ [r] := by
  unfold insertPending
  rw [List.filter_reverse, bubbleRev_filter_of_pos p r l.reverse hr hstop]
  simp [List.filter_reverse]

theorem insertPending_filter_of_neg (p : TransferRequest → Bool)
    (l : List TransferRequest) (r : TransferRequest) (hr : p r = false) :
    (insertPending l r).filter p = l.filter p := by
  unfold insertPending
  rw [List.filter_reverse, bubbleRev_filter_of_neg p r l.reverse hr]
  simp [List.filter_reverse]

theorem foldl_insertPending_length (rs l : List TransferRequest) :
    (rs.foldl insertPending l).length = l.length + rs.length := by
  induction rs generalizing l with
  | nil => simp
  | cons r rs ih =>
      simp only [List.foldl_cons, ih, insertPending_length, List.length_cons]
      omega

theorem foldl_insertPending_pairwise (rs l : List TransferRequest)
    (h : l.Pairwise prioLE) : (rs.foldl insertPending l).Pairwise prioLE := by
  induction rs generalizing l with
  | nil => exact h
  | cons r rs ih => exact ih _ (insertPending_pairwise l r h)

theorem foldl_insertPending_filter (v : Int) (rs l : List TransferRequest) :
    (rs.foldl insertPending l).filter (fun r => decide (r.Priority = v))
      = l.filter (fun r => decide (r.Priority = v))
        ++ rs.filter (fun r => decide (r.Priority = v)) := by
  induction rs generalizing l with
  | nil => simp
  | cons r rs ih =>
      simp only [List.foldl_cons, List.filter_cons]
      by_cases hrv : r.Priority = v
      · rw [ih, insertPending_filter_of_pos _ _ _ (by simpa using hrv)]
        · simp [hrv]
        · intro a ha
          have : a.Priority = v := by simpa using ha
          omega
      · rw [ih, insertPending_filter_of_neg _ _ _ (by simpa using hrv)]
        simp [hrv]

/-! ## Helper lemmas: the trace semantics -/

theorem run_append (t1 t2 : List Event) :
    run (t1 ++ t2) = t2.foldl step (run t1) :=
  List.foldl_append step initState t1 t2

theorem foldl_step_submits (rs : List TransferRequest) (st : TraceState) :
    (rs.map Event.submit).foldl step st =
      { st with pending := rs.foldl insertPending st.pending,
                submitted := st.submitted ++ rs } := by
  induction rs generalizing st with
  | nil => simp
  | cons r rs ih =>
      obtain ⟨p, s, sub, disp, del⟩ := st
      simp only [List.map_cons, List.foldl_cons, step, ih, List.foldl_cons]
      simp [List.append_assoc]

theorem foldl_step_drain (q : List TransferRequest) (st : TraceState)
    (hp : st.pending = q) (hs : st.stopped = false) :
    (List.replicate q.length Event.dispatch).foldl step st =
      { st with pending := [], dispatched := st.dispatched ++ q,
                delivered := st.delivered ++ q } := by
  induction q generalizing st with
  | nil =>
      obtain ⟨p, s, sub, disp, del⟩ := st
      simp only at hp
      subst hp
      simp
  | cons r q ih =>
      obtain ⟨p, s, sub, disp, del⟩ := st
      simp only at hp hs
      subst hp hs
      simp only [List.length_cons, List.replicate_succ, List.foldl_cons, step,
        trySend, mkDoneChan]
      rw [ih _ rfl rfl]
      simp [List.append_assoc]

/-- The inductive invariant of the trace semantics: the pending queue is
sorted by priority; the delivered and dispatched logs coincide (each
dispatch delivers its one signal into the fresh capacity-1 buffer); and
submissions are conserved: every request occurs in the submission log
exactly as often as in the pending queue and dispatched log together. -/
def StInv (st : TraceState) : Prop :=
  st.pending.Pairwise prioLE
  ∧ st.delivered = st.dispatched
  ∧ ∀ r : TransferRequest,
      st.submitted.count r = st.pending.count r + st.dispatched.count r

theorem step_inv (st : TraceState) (e : Event) (h : StInv st) :
    StInv (step st e) := by
  obtain ⟨p, s, sub, disp, del⟩ := st
  obtain ⟨hsort, hdel, hcount⟩ := h
  simp only at hsort hdel hcount
  cases e with
  | submit r =>
      refine ⟨insertPending_pairwise _ _ hsort, by simpa [step] using hdel, ?_⟩
      intro x
      have hc := insertPending_count p r x
      have hx := hcount x
      simp only [step, List.count_append, List.count_cons, List.count_nil, hc]
      omega
  | dispatch =>
      cases s with
      | true => exact ⟨hsort, hdel, hcount⟩
      | false =>
          cases p with
          | nil => exact ⟨by simp [step], by simpa [step] using hdel,
              by simpa [step] using hcount⟩
          | cons r rest =>
              refine ⟨?_, ?_, ?_⟩
              · simpa [step] using (List.pairwise_cons.1 hsort).2
              · simp [step, trySend, mkDoneChan, hdel]
              · intro x
                have hx := hcount x
                simp [step, trySend, mkDoneChan, List.count_cons,
                  List.count_append] at hx ⊢
                omega
  | stop => exact ⟨hsort, hdel, hcount⟩

theorem foldl_step_inv (t : List Event) (st : TraceState) (h : StInv st) :
    StInv (t.foldl step st) := by
  induction t generalizing st with
  | nil => exact h
  | cons e t ih => exact ih _ (step_inv st e h)

theorem run_inv (t : List Event) : StInv (run t) :=
  foldl_step_inv t initState ⟨by simp [initState], rfl, by simp [initState]⟩

/-! ## Helper lemmas: int64 wraparound -/

theorem toInt64_eq_self (n : Int) (h1 : -(2 ^ 63) ≤ n) (h2 : n < 2 ^ 63) :
    toInt64 n = n := by
  unfold toInt64
  rw [Int.emod_eq_of_lt (by omega) (by omega)]
  omega

/-! ## Helper lemmas: the fragment directory -/

theorem dirFind_cons_self (kv : FragmentKey × FragMapping) (t : DirData)
    (fk : FragmentKey) (h : kv.1 = fk) : dirFind (kv :: t) fk = (kv.2, true) := by
  simp [dirFind, List.find?_cons, h]

theorem dirFind_cons_of_ne (kv : FragmentKey × FragMapping) (t : DirData)
    (fk : FragmentKey) (h : kv.1 ≠ fk) : dirFind (kv :: t) fk = dirFind t fk := by
  simp [dirFind, List.find?_cons, h]

theorem dirFind_eq_none_of_not_mem (d : DirData) (fk : FragmentKey)
    (h : fk ∉ d.map Prod.fst) : dirFind d fk = (zeroFragMapping, false) := by
  induction d with
  | nil => rfl
  | cons kv t ih =>
      rw [List.map_cons, List.mem_cons] at h
      push_neg at h
      rw [dirFind_cons_of_ne kv t fk (fun he => h.1 he.symm)]
      exact ih h.2

theorem dirFind_dirStore_self (d : DirData) (fk : FragmentKey) (m : FragMapping) :
    dirFind (dirStore d fk m) fk = (m, true) := by
  induction d with
  | nil => exact dirFind_cons_self (fk, m) [] fk rfl
  | cons kv t ih =>
      by_cases hk : kv.1 = fk
      · rw [dirStore, if_pos hk]
        exact dirFind_cons_self (fk, m) t fk rfl
      · rw [dirStore, if_neg hk, dirFind_cons_of_ne kv _ fk hk]
        exact ih

theorem dirFind_dirDelete_self (d : DirData) (fk : FragmentKey) (h : KeysNodup d) :
    dirFind (dirDelete d fk) fk = (zeroFragMapping, false) := by
  induction d with
  | nil => rfl
  | cons kv t ih =>
      unfold KeysNodup at h
      rw [List.map_cons, List.nodup_cons] at h
      by_cases hk : kv.1 = fk
      · rw [dirDelete, if_pos hk]
        exact dirFind_eq_none_of_not_mem t fk (hk ▸ h.1)
      · rw [dirDelete, if_neg hk, dirFind_cons_of_ne kv _ fk hk]
        exact ih h.2

theorem dirDelete_of_not_found (d : DirData) (fk : FragmentKey)
    (h : (dirFind d fk).2 = false) : dirDelete d fk = d := by
  induction d with
  | nil => rfl
  | cons kv t ih =>
      by_cases hk : kv.1 = fk
      · rw [dirFind_cons_self kv t fk hk] at h
        simp at h
      · rw [dirFind_cons_of_ne kv t fk hk] at h
        rw [dirDelete, if_neg hk, ih h]

theorem mem_iff_dirFind (d : DirData) (h : KeysNodup d) (k : FragmentKey)
    (m : FragMapping) : (k, m) ∈ d ↔ dirFind d k = (m, true) := by
  induction d with
  | nil =>
      simp only [List.not_mem_nil, false_iff]
      intro he
      have : (zeroFragMapping, false).2 = ((m, true) : FragMapping × Bool).2 := by
        rw [← he]; rfl
      simp at this
  | cons kv t ih =>
      unfold KeysNodup at h
      rw [List.map_cons, List.nodup_cons] at h
      by_cases hk : kv.1 = k
      · rw [dirFind_cons_self kv t k hk]
        constructor
        · intro hmem
          rcases List.mem_cons.1 hmem with heq | hmem'
          · rw [← heq]
          · exfalso
            exact h.1 (hk ▸ (List.mem_map_of_mem Prod.fst hmem' : k ∈ t.map Prod.fst)) |>.elim
        · intro hfind
          have hm : kv.2 = m := congrArg Prod.fst hfind
          have hkv : kv = (k, m) := by rw [← hk, ← hm]
          exact hkv ▸ List.mem_cons_self kv t
      · rw [dirFind_cons_of_ne kv t k hk, ← ih h.2]
        simp only [List.mem_cons, or_iff_right_iff_imp]
        intro heq
        exact absurd (congrArg Prod.fst heq.symm) hk

/-- Running all submissions and then draining the queue dispatches
exactly the queue built by the stable priority insertion. -/
theorem run_submit_then_drain (rs : List TransferRequest) :
    (run (rs.map Event.submit ++ List.replicate rs.length Event.dispatch)).dispatched
      = rs.foldl insertPending [] := by
  rw [run_append]
  have h1 : run (rs.map Event.submit)
      = { initState with pending := rs.foldl insertPending [],
                         submitted := rs } := by
    unfold run
    rw [foldl_step_submits]
    simp [initState]
  rw [h1]
  have hlen : rs.length
      = (rs.foldl insertPending ([] : List TransferRequest)).length := by
    rw [foldl_insertPending_length]
    simp
  rw [hlen, foldl_step_drain _ _ rfl rfl]
  simp [initState]

/-! ## The claims -/

/-- Claim C1: for every sequence of successfully submitted requests, the
dispatch loop removes requests in ascending priority order (lower
numeric value first) and, among requests of equal priority, in
submission order (stable insertion): the dispatched log is sorted by
priority and, for each priority value, lists exactly the submissions of
that priority in their submission order; in particular submitting
A(priority 5), B(priority 1), C(priority 1) yields dispatch order
B, C, A. -/
theorem c1_dispatch_order_stable_priority (rs : List TransferRequest) :
    (run (rs.map Event.submit ++ List.replicate rs.length Event.dispatch)).dispatched.Pairwise
        prioLE
    ∧ (∀ v : Int,
        (run (rs.map Event.submit
            ++ List.replicate rs.length Event.dispatch)).dispatched.filter
            (fun r => decide (r.Priority = v))
          = rs.filter (fun r => decide (r.Priority = v)))
    ∧ (run ([reqA, reqB, reqC].map Event.submit
          ++ List.replicate 3 Event.dispatch)).dispatched = [reqB, reqC, reqA] := by
  rw [run_submit_then_drain]
  refine ⟨foldl_insertPending_pairwise rs [] (by simp), ?_, by decide⟩
  intro v
  rw [foldl_insertPending_filter v rs []]
  simp

/-- Claim C2 counterexample: a request still queued when `Stop` is
called receives no completion signal at all, not exactly one — the
claim fails for the trace submit-then-stop. -/
theorem c2_counterexample :
    reqA ∈ (run [Event.submit reqA, Event.stop, Event.dispatch]).submitted
    ∧ ¬ (run [Event.submit reqA, Event.stop, Event.dispatch]).delivered.count reqA
          = 1 := by
  decide

/-- Claim C2 (amended): every request submitted at most once receives
exactly as many completion signals as it has dispatches — exactly one
once it is dispatched, never two, regardless of success or caller-side
cancellation — while a request still in the pending queue (for example
one abandoned by `Stop`) has received none. -/
theorem c2_exactly_one_signal_per_dispatch (t : List Event) (r : TransferRequest)
    (h : (run t).submitted.count r ≤ 1) :
    (run t).delivered.count r = (run t).dispatched.count r
    ∧ (run t).delivered.count r ≤ 1
    ∧ (r ∈ (run t).dispatched → (run t).delivered.count r = 1)
    ∧ (r ∈ (run t).pending → (run t).delivered.count r = 0) := by
  obtain ⟨hsort, hdel, hcount⟩ := run_inv t
  have hc := hcount r
  refine ⟨by rw [hdel], by rw [hdel]; omega, ?_, ?_⟩
  · intro hm
    have h1 : 0 < (run t).dispatched.count r := List.count_pos_iff.2 hm
    rw [hdel]
    omega
  · intro hm
    have h1 : 0 < (run t).pending.count r := List.count_pos_iff.2 hm
    rw [hdel]
    omega

/-- Witness for the amended claim C2 at a concrete trace: one submission
followed by one dispatch delivers exactly one signal. -/
theorem c2_witness :
    (run [Event.submit reqA, Event.dispatch]).submitted.count reqA ≤ 1
    ∧ ((run [Event.submit reqA, Event.dispatch]).delivered.count reqA
          = (run [Event.submit reqA, Event.dispatch]).dispatched.count reqA
      ∧ (run [Event.submit reqA, Event.dispatch]).delivered.count reqA ≤ 1
      ∧ (reqA ∈ (run [Event.submit reqA, Event.dispatch]).dispatched →
          (run [Event.submit reqA, Event.dispatch]).delivered.count reqA = 1)
      ∧ (reqA ∈ (run [Event.submit reqA, Event.dispatch]).pending →
          (run [Event.submit reqA, Event.dispatch]).delivered.count reqA = 0)) :=
  ⟨by decide,
   c2_exactly_one_signal_per_dispatch [Event.submit reqA, Event.dispatch] reqA
     (by decide)⟩

/-- Claim C3: `Stop` is `close(e.quit)`; the first call succeeds, but a
second call closes an already-closed channel, which panics in Go — the
code contradicts the claim's (and the specification's) requirement that
repeated `Stop` never panic. -/
theorem c3_second_stop_panics :
    Stop { closed := false } = Except.ok { closed := true }
    ∧ (Stop { closed := false } >>= Stop)
        = Except.error "close of closed channel" :=
  ⟨rfl, rfl⟩

/-- Claim C4 counterexample: for a one-byte transfer the code's
`SizeBytes/(1<<20)` floors to zero, so the simulated latency is the bare
base latency, while the claimed formula with `ceil(size/1MiB)` adds a
full per-MiB millisecond. -/
theorem c4_counterexample :
    serviceLatency defaultInterval reqOneByte = 2000000
    ∧ claimLatencyCeil defaultInterval reqOneByte = 3000000
    ∧ serviceLatency defaultInterval reqOneByte
        ≠ claimLatencyCeil defaultInterval reqOneByte :=
  ⟨by decide, by decide, by decide⟩

/-- Claim C4 (amended): whenever the arithmetic stays inside the `int64`
range, the simulated service time equals `base_latency +
floor(size_bytes / 1MiB) * per_MiB_latency`, and this value is halved
exactly when the request's priority is ≤ 0. -/
theorem c4_latency_floor (interval : Int) (req : TransferRequest)
    (h0 : 0 ≤ interval) (h1 : req.SizeBytes < 2 ^ 64)
    (h2 : interval + ((req.SizeBytes / 2 ^ 20 : Nat) : Int) * 1000000 < 2 ^ 63) :
    serviceLatency interval req = claimLatencyFloor interval req := by
  have hq0 : (0 : Int) ≤ ((req.SizeBytes / 2 ^ 20 : Nat) : Int) := by omega
  have hq : ((req.SizeBytes / 2 ^ 20 : Nat) : Int) < 2 ^ 63 := by
    have : req.SizeBytes / 2 ^ 20 < 2 ^ 44 := by omega
    omega
  have hm0 : (0 : Int) ≤ ((req.SizeBytes / 2 ^ 20 : Nat) : Int) * 1000000 := by omega
  have hm : ((req.SizeBytes / 2 ^ 20 : Nat) : Int) * 1000000 < 2 ^ 63 := by omega
  simp only [serviceLatency, claimLatencyFloor, Nat.mod_eq_of_lt h1]
  rw [toInt64_eq_self _ (by omega) hq, toInt64_eq_self _ (by omega) hm,
    toInt64_eq_self _ (by omega) (by omega)]

/-- Witness for the amended claim C4 at a concrete request: five MiB and
three bytes at the highest priority tier. -/
theorem c4_witness :
    serviceLatency defaultInterval reqFiveMiB
      = claimLatencyFloor defaultInterval reqFiveMiB :=
  c4_latency_floor defaultInterval reqFiveMiB (by decide) (by decide) (by decide)

/-- Claim C5 counterexample: the completion channel allocated by
`EnqueueTransfer` is buffered with capacity one, so when the caller is
not listening at delivery time the non-blocking send still takes the
send case and the signal is queued in the buffer — it is not dropped. -/
theorem c5_counterexample :
    (trySend mkDoneChan none).2 = true
    ∧ (trySend mkDoneChan none).1.buffer = [none] := by
  decide

/-- Claim C5 (amended): delivering a completion signal never blocks the
dispatch loop — the non-blocking send is total — and for a dispatched
request the signal is queued into the freshly allocated capacity-1
buffer of its completion handle even when the caller is not listening; a
signal is dropped (channel left unchanged) only when the buffer is
already full. -/
theorem c5_nonblocking_buffered_delivery (e : PMEngine) (r : TransferRequest)
    (v : Option String) :
    (EnqueueTransfer e (some r)).1.chans[e.chans.length]? = some mkDoneChan
    ∧ trySend mkDoneChan v = ({ capacity := 1, buffer := [v] }, true)
    ∧ (∀ c : Chan, (trySend c v).2 = false → (trySend c v).1 = c) := by
  refine ⟨?_, rfl, ?_⟩
  · simp only [EnqueueTransfer]
    exact List.getElem?_concat_length e.chans mkDoneChan
  · intro c h
    unfold trySend at h ⊢
    by_cases hc : c.buffer.length < c.capacity
    · rw [if_pos hc] at h
      simp at h
    · rw [if_neg hc]

/-- Witness for the amended claim C5 on a fresh engine and the nil-error
completion value. -/
theorem c5_witness :
    (EnqueueTransfer NewPMEngine (some reqA)).1.chans[NewPMEngine.chans.length]?
        = some mkDoneChan
    ∧ trySend mkDoneChan (none : Option String)
        = ({ capacity := 1, buffer := [none] }, true)
    ∧ (∀ c : Chan, (trySend c (none : Option String)).2 = false →
        (trySend c (none : Option String)).1 = c) :=
  c5_nonblocking_buffered_delivery NewPMEngine reqA none

/-- Claim C6: submitting a nil (malformed) request always returns the
`InvalidRequest` error (`"nil request"`) and leaves the engine state —
in particular the pending queue — unchanged, while a successful
submission grows the pending queue by exactly one and returns a
completion handle. -/
theorem c6_nil_rejected_success_grows_queue (e : PMEngine) (r : TransferRequest) :
    EnqueueTransfer e none = (e, Except.error "nil request")
    ∧ (EnqueueTransfer e (some r)).1.pending.length = e.pending.length + 1
    ∧ (EnqueueTransfer e (some r)).2 = Except.ok e.chans.length := by
  refine ⟨rfl, ?_, rfl⟩
  simp only [EnqueueTransfer]
  exact insertPending_length e.pending _

/-- Claim C7: after every submit and every dispatch step of an execution
whose submitted requests are pairwise distinct, the pending queue never
contains the same request more than once, and the head of the queue has
priority less than or equal to the priority of every queued request. -/
theorem c7_queue_nodup_head_minimal (t : List Event)
    (h : (run t).submitted.Nodup) :
    (run t).pending.Nodup
    ∧ ∀ hd x, (run t).pending.head? = some hd → x ∈ (run t).pending →
        hd.Priority ≤ x.Priority := by
  obtain ⟨hsort, hdel, hcount⟩ := run_inv t
  constructor
  · rw [List.nodup_iff_count_le_one] at h ⊢
    intro a
    have h1 := hcount a
    have h2 := h a
    omega
  · intro hd x hhd hx
    cases hp : (run t).pending with
    | nil => rw [hp] at hhd; simp at hhd
    | cons a l =>
        rw [hp] at hhd hx hsort
        have ha : a = hd := by simpa using hhd
        subst ha
        rcases List.mem_cons.1 hx with rfl | hx'
        · exact le_refl _
        · exact (List.pairwise_cons.1 hsort).1 x hx'

/-- Witness for claim C7 at a concrete three-submission trace. -/
theorem c7_witness :
    (run [Event.submit reqA, Event.submit reqB, Event.submit reqC]).submitted.Nodup
    ∧ ((run [Event.submit reqA, Event.submit reqB, Event.submit reqC]).pending.Nodup
      ∧ ∀ hd x,
          (run [Event.submit reqA, Event.submit reqB,
            Event.submit reqC]).pending.head? = some hd →
          x ∈ (run [Event.submit reqA, Event.submit reqB,
            Event.submit reqC]).pending →
          hd.Priority ≤ x.Priority) :=
  ⟨by decide,
   c7_queue_nodup_head_minimal
     [Event.submit reqA, Event.submit reqB, Event.submit reqC] (by decide)⟩

/-- Claim C8: on a directory whose keys are pairwise distinct (every
reachable Go map state), `Install` followed by `Lookup` of the same key
returns exactly the installed mapping with `found = true` (full
replacement), `Remove` followed by `Lookup` returns `found = false`, and
`Remove` of an absent key is a no-op, not an error. -/
theorem c8_install_lookup_remove (d : DirData) (vpn idx : Nat)
    (m : FragMapping) (h : KeysNodup d) :
    Lookup (Install d vpn idx m) vpn idx = (m, true)
    ∧ Lookup (Remove d vpn idx) vpn idx = (zeroFragMapping, false)
    ∧ ((Lookup d vpn idx).2 = false → Remove d vpn idx = d) :=
  ⟨dirFind_dirStore_self d _ m,
   dirFind_dirDelete_self d _ h,
   fun hnf => dirDelete_of_not_found d _ hnf⟩

/-- Witness for claim C8 at a concrete directory and a key absent from
it. -/
theorem c8_witness :
    KeysNodup dirTwo
    ∧ (Lookup dirTwo 0x9999 0).2 = false
    ∧ (Lookup (Install dirTwo 0x9999 0 mapNode3) 0x9999 0 = (mapNode3, true)
      ∧ Lookup (Remove dirTwo 0x9999 0) 0x9999 0 = (zeroFragMapping, false)
      ∧ ((Lookup dirTwo 0x9999 0).2 = false → Remove dirTwo 0x9999 0 = dirTwo)) :=
  ⟨by decide, by decide,
   c8_install_lookup_remove dirTwo 0x9999 0 mapNode3 (by decide)⟩

/-- Claim C9: on a directory whose keys are pairwise distinct,
`ScanForNode n` returns exactly the set of (key, mapping) pairs whose
current (most recently installed) mapping has `NodeID = n`: a pair is in
the scan result precisely when `Lookup` of its key returns that mapping
and the mapping's node is `n`. -/
theorem c9_scan_exactly_node (d : DirData) (n : Int) (h : KeysNodup d)
    (k : FragmentKey) (m : FragMapping) :
    (k, m) ∈ ScanForNode d n
      ↔ (Lookup d k.VPN k.Index = (m, true) ∧ m.NodeID = n) := by
  unfold ScanForNode
  rw [List.mem_filter]
  have hl : Lookup d k.VPN k.Index = dirFind d k := rfl
  rw [hl, ← mem_iff_dirFind d h k m]
  simp

/-- Witness for claim C9 at a concrete directory. -/
theorem c9_witness :
    KeysNodup dirTwo
    ∧ ((({ VPN := 0x1000, Index := 2 } : FragmentKey), mapNode3) ∈ ScanForNode dirTwo 3
        ↔ (Lookup dirTwo 0x1000 2 = (mapNode3, true) ∧ mapNode3.NodeID = 3)) :=
  ⟨by decide, c9_scan_exactly_node dirTwo 3 (by decide) { VPN := 0x1000, Index := 2 } mapNode3⟩

/-- Claim C10: for every non-nil request, `EnqueueTransfer` replaces any
caller-supplied `Done` channel with a freshly allocated buffered channel
of capacity one and returns that channel as the completion handle: the
handle is the next channel identifier (distinct from every previously
allocated channel), the channel stored there is the fresh empty
capacity-1 buffer, and the copy of the request actually enqueued carries
the fresh handle as its `Done` — the caller's pre-installed channel is
never the one used for signaling. -/
theorem c10_done_channel_replaced (e : PMEngine) (r : TransferRequest) :
    (EnqueueTransfer e (some r)).2 = Except.ok e.chans.length
    ∧ (EnqueueTransfer e (some r)).1.chans[e.chans.length]? = some mkDoneChan
    ∧ (∀ i, i < e.chans.length → e.chans.length ≠ i)
    ∧ List.Perm (EnqueueTransfer e (some r)).1.pending
        ({ r with Done := some e.chans.length } :: e.pending) := by
  refine ⟨rfl, ?_, by omega, ?_⟩
  · simp only [EnqueueTransfer]
    exact List.getElem?_concat_length e.chans mkDoneChan
  · simp only [EnqueueTransfer]
    exact insertPending_perm e.pending { r with Done := some e.chans.length }

/-- Witness for claim C10 on a fresh engine. -/
theorem c10_witness :
    (EnqueueTransfer NewPMEngine (some reqA)).2 = Except.ok NewPMEngine.chans.length
    ∧ (EnqueueTransfer NewPMEngine (some reqA)).1.chans[NewPMEngine.chans.length]?
        = some mkDoneChan
    ∧ (∀ i, i < NewPMEngine.chans.length → NewPMEngine.chans.length ≠ i)
    ∧ List.Perm (EnqueueTransfer NewPMEngine (some reqA)).1.pending
        ({ reqA with Done := some NewPMEngine.chans.length } :: NewPMEngine.pending) :=
  c10_done_channel_replaced NewPMEngine reqA

end Flame
